import Mathlib

/-!
# Verification of the `marvin-recipes` chunking / minimap subsystem

A shallow embedding of the token-aware text chunker
(`src/marvin_recipes/utilities/strings.py`, `split_text`), the markdown
minimap builder and its lookup closure
(`src/marvin-recipes/models/documents.py`, `create_minimap_fn` /
`get_location_fn`), and the excerpt assembler's data flow into the minimap
(`document_to_excerpts` / `_create_excerpt`), together with theorems about
their behaviour.

Modelling conventions:
* The tokenizer (`tiktoken`, an external collaborator) is abstracted as a
  pair of functions `tokenize` / `detokenize` over an arbitrary token type.
  Theorems that need tokenizer facts take them as explicit hypotheses
  (`DetokAppend`, `DetokNonempty`, `DetokRoundtrip`); concrete evaluations
  use a character-level tokenizer that satisfies all of them.
* Python `float` parameters (`chunk_overlap`, `last_chunk_threshold`) are
  modelled as rationals; `int(x)` is truncation toward zero (`pyTrunc`).
* Python exceptions are modelled by `Except String`; `range(0, n, 0)`
  raising `ValueError` is an explicit error case, and `range(0, n, s)` with
  `s < 0` and `n ≥ 0` is the empty index list, as in CPython.
* The Python code mutates one shared `current_stack` dict and stores
  references to it in the `minimap` dict; the embedding models this with an
  explicit store (`MinimapState.store`) addressed by references, so that the
  aliasing behaviour of the source is reproduced exactly.
-/

/-- External tokenizer collaborator: `tokenize` / `detokenize` from
`marvin_recipes/utilities/strings.py` (backed by tiktoken there). -/
structure Tokenizer (α : Type) where
  tokenize : String → List α
  detokenize : List α → String

/-- A character-level tokenizer: each character is one token.  Used to run
the embedded code on concrete inputs. -/
def charTokenizer : Tokenizer Char where
  tokenize s := s.data
  detokenize l := String.mk l

/-- `detokenize` distributes over concatenation of token lists (true of a
byte-pair encoder, whose decode is concatenation of per-token strings). -/
def DetokAppend (tok : Tokenizer α) : Prop :=
  ∀ a b : List α, tok.detokenize (a ++ b) = tok.detokenize a ++ tok.detokenize b

/-- Every single token detokenizes to a nonempty string. -/
def DetokNonempty (tok : Tokenizer α) : Prop :=
  ∀ t : α, tok.detokenize [t] ≠ ""

/-- Round-trip fidelity: `detokenize (tokenize s) = s`. -/
def DetokRoundtrip (tok : Tokenizer α) : Prop :=
  ∀ s : String, tok.detokenize (tok.tokenize s) = s

/-- Python `int(x)`: truncation toward zero (on a rational `num/den` in
lowest terms with positive denominator, that is `num.tdiv den`). -/
def pyTrunc (q : ℚ) : ℤ := q.num.tdiv q.den

/-- The window advance `chunk_size - int(chunk_overlap * chunk_size)` from
`split_text` (strings.py line 95). -/
def splitStep (chunk_size : ℤ) (chunk_overlap : ℚ) : ℤ :=
  chunk_size - pyTrunc (chunk_overlap * chunk_size)

/-- The index list produced by Python `range(0, n, step)` for `step ≥ 1`. -/
def windowStarts (n step : ℕ) : List ℕ :=
  (List.range ((n + step - 1) / step)).map (· * step)

/-- One iteration of the loop in `split_text` (strings.py line 96): the
window `tokens[i : i + chunk_size]` paired with
`len(detokenize(tokens[:i]))`, for each start `i`. -/
def rawChunks (tok : Tokenizer α) (tokens : List α) (csize step : ℕ) :
    List (List α × ℕ) :=
  (windowStarts tokens.length step).map
    (fun i => ((tokens.drop i).take csize, (tok.detokenize (tokens.take i)).length))

/-- `chunks[-2][0].extend(chunks.pop(-1)[0])` (strings.py line 100): the
final chunk's tokens are appended onto the second-to-last chunk's tokens and
the final chunk is dropped; the second-to-last offset is kept. -/
def absorbLast : List (List α × ℕ) → List (List α × ℕ)
  | [] => []
  | [c] => [c]
  | [c, d] => [(c.1 ++ d.1, c.2)]
  | c :: d :: e :: rest => c :: absorbLast (d :: e :: rest)

/-- The merge condition of strings.py line 99:
`len(chunks) > 1 and len(chunks[-1][0]) < chunk_size * last_chunk_threshold`. -/
def mergeCond (chunk_size : ℤ) (last_chunk_threshold : ℚ)
    (chunks : List (List α × ℕ)) : Bool :=
  decide (1 < chunks.length) &&
    decide ((((chunks.getLast?.map fun c => c.1.length).getD 0 : ℕ) : ℚ) <
      (chunk_size : ℚ) * last_chunk_threshold)

/-- The pre-merge chunk list of `split_text` (strings.py lines 92-96):
empty when the `range` step is negative, as in CPython. -/
def splitRaw (tok : Tokenizer α) (text : String) (chunk_size : ℤ)
    (chunk_overlap : ℚ) : List (List α × ℕ) :=
  if 0 < splitStep chunk_size chunk_overlap then
    rawChunks tok (tok.tokenize text) chunk_size.toNat
      (splitStep chunk_size chunk_overlap).toNat
  else []

/-- `split_text` from `marvin_recipes/utilities/strings.py`, with
`return_index=True` (the `False` variant only drops the second components).
The `None` defaults of the source (`chunk_overlap=0.1`,
`last_chunk_threshold=0.25`) are supplied at call sites.  The first error is
the source's explicit `ValueError`; the second is the `ValueError` CPython
raises for `range(0, n, 0)` at line 95. -/
def split_text (tok : Tokenizer α) (text : String) (chunk_size : ℤ)
    (chunk_overlap : ℚ) (last_chunk_threshold : ℚ) :
    Except String (List (String × ℕ)) :=
  if chunk_overlap < 0 ∨ 1 < chunk_overlap then
    .error "chunk_overlap must be between 0 and 1"
  else if splitStep chunk_size chunk_overlap = 0 then
    .error "range() arg 3 must not be zero"
  else
    let chunks := splitRaw tok text chunk_size chunk_overlap
    let merged :=
      if mergeCond chunk_size last_chunk_threshold chunks then absorbLast chunks
      else chunks
    .ok (merged.map fun c => (tok.detokenize c.1, c.2))

/-! ## Minimap builder (`src/marvin-recipes/models/documents.py`) -/

/-- Python `str.startswith`. -/
def strStartsWith (s pre : String) : Bool :=
  pre.data.isPrefixOf s.data

/-- Is `c` a line terminator for Python `str.splitlines`? -/
def isLineBreak (c : Char) : Bool :=
  c = '\n' ∨ c = '\r' ∨ c = '\x0b' ∨ c = '\x0c' ∨ c = '\x1c' ∨ c = '\x1d' ∨
    c = '\x1e' ∨ c = '\x85' ∨ c = '\u2028' ∨ c = '\u2029'

/-- Worker for `splitLines`: `acc` is the current line, reversed. -/
def splitLinesAux : List Char → List Char → List (List Char)
  | [], acc => if acc.isEmpty then [] else [acc.reverse]
  | '\r' :: '\n' :: rest, acc => acc.reverse :: splitLinesAux rest []
  | c :: rest, acc =>
    if isLineBreak c then acc.reverse :: splitLinesAux rest []
    else splitLinesAux rest (c :: acc)

/-- Python `str.splitlines`: split at line terminators (which are dropped,
`\r\n` counting as one terminator); a trailing terminator produces no empty
final line, and the empty string has no lines. -/
def splitLines (s : String) : List String :=
  (splitLinesAux s.data []).map String.mk

/-- The `current_stack` dict of `create_minimap_fn`: heading levels 1-5
mapped to the most recent heading line at that level. -/
structure HeadStack where
  h1 : Option String
  h2 : Option String
  h3 : Option String
  h4 : Option String
  h5 : Option String
deriving DecidableEq, Repr

def emptyStack : HeadStack := ⟨none, none, none, none, none⟩

/-- `"\n".join([s for s in ordered_stack if s is not None])` over levels
1 through 5 (documents.py lines 198-199). -/
def renderStack (s : HeadStack) : String :=
  String.intercalate "\n" ([s.h1, s.h2, s.h3, s.h4, s.h5].filterMap id)

/-- The scan state of `create_minimap_fn`.  Python mutates one shared
`current_stack` dict and stores *references* to it in `minimap`; this is
modelled with an explicit heap: `store` is the heap of dict objects,
`curRef` the reference held by the `current_stack` variable, and `minimap`
maps recorded offsets to references into `store`. -/
structure MinimapState where
  store : List HeadStack
  curRef : ℕ
  inCodeBlock : Bool
  characters : ℕ
  minimap : List (ℕ × ℕ)
deriving DecidableEq, Repr

/-- `minimap = {}; in_code_block = False; current_stack = {}; characters = 0`
(documents.py lines 157-160): the heap holds the one initial empty dict. -/
def initState : MinimapState :=
  { store := [emptyStack], curRef := 0, inCodeBlock := false, characters := 0,
    minimap := [] }

/-- The body of the `for line in content.splitlines()` loop of
`create_minimap_fn` (documents.py lines 161-189).  A level-1 heading
rebinds `current_stack` to a fresh dict (line 169); levels 2-5 mutate the
dict currently referenced (lines 170-185), so every snapshot recorded for
the same dict continues to alias it; the snapshot key
`characters - len(line)` is the pre-line character count. -/
def processLine (st : MinimapState) (line : String) : MinimapState :=
  let characters := st.characters + line.length
  let inCodeBlock :=
    if strStartsWith line "```" then !st.inCodeBlock else st.inCodeBlock
  if inCodeBlock then
    { st with characters := characters, inCodeBlock := inCodeBlock }
  else
    let cur := st.store.getD st.curRef emptyStack
    if strStartsWith line "# " then
      { store := st.store ++ [⟨some line, none, none, none, none⟩],
        curRef := st.store.length, inCodeBlock := inCodeBlock,
        characters := characters,
        minimap := st.minimap ++ [(st.characters, st.store.length)] }
    else if strStartsWith line "## " then
      { store := st.store.set st.curRef ⟨cur.h1, some line, none, none, none⟩,
        curRef := st.curRef, inCodeBlock := inCodeBlock,
        characters := characters,
        minimap := st.minimap ++ [(st.characters, st.curRef)] }
    else if strStartsWith line "### " then
      { store := st.store.set st.curRef ⟨cur.h1, cur.h2, some line, none, none⟩,
        curRef := st.curRef, inCodeBlock := inCodeBlock,
        characters := characters,
        minimap := st.minimap ++ [(st.characters, st.curRef)] }
    else if strStartsWith line "#### " then
      { store := st.store.set st.curRef ⟨cur.h1, cur.h2, cur.h3, some line, none⟩,
        curRef := st.curRef, inCodeBlock := inCodeBlock,
        characters := characters,
        minimap := st.minimap ++ [(st.characters, st.curRef)] }
    else if strStartsWith line "##### " then
      { store := st.store.set st.curRef ⟨cur.h1, cur.h2, cur.h3, cur.h4, some line⟩,
        curRef := st.curRef, inCodeBlock := inCodeBlock,
        characters := characters,
        minimap := st.minimap ++ [(st.characters, st.curRef)] }
    else
      { st with characters := characters, inCodeBlock := inCodeBlock }

/-- The scan loop of `create_minimap_fn` over an explicit line list. -/
def minimapOfLines (lines : List String) : MinimapState :=
  lines.foldl processLine initState

/-- `create_minimap_fn(content)`: the fully constructed scan state that the
returned closure `get_location_fn` captures. -/
def create_minimap (content : String) : MinimapState :=
  minimapOfLines (splitLines content)

/-- `get_location_fn(n)` (documents.py lines 191-199): raise on `n < 0`;
otherwise take the largest recorded offset `≤ n` (`max(..., default=0)`,
then `minimap.get(..., {})`), resolve the stored dict reference in the
final heap, and render levels 1-5 joined by newlines. -/
def get_location_fn (content : String) (n : ℤ) : Except String String :=
  if n < 0 then .error "n must be >= 0"
  else
    let st := create_minimap content
    let k := ((st.minimap.filter fun p => (p.1 : ℤ) ≤ n).map Prod.fst).foldl max 0
    let stack :=
      match st.minimap.lookup k with
      | some ref => st.store.getD ref emptyStack
      | none => emptyStack
    .ok (renderStack stack)

/-! ## Excerpt assembler (`document_to_excerpts` / `_create_excerpt`) -/

/-- The argument `document_to_excerpts` hands to the minimap lookup for each
chunk: `_create_excerpt(..., index=i, ...)` with
`for i, (text, chr) in enumerate(text_chunks)` (documents.py lines 105-116),
and `_create_excerpt` calls `create_minimap_fn(document.text)(index)`
(documents.py line 129) — the enumeration position `i`, while the character
offset `chr` is unused.  `split_text` is called with the default
`last_chunk_threshold` (0.25). -/
def excerpt_minimap_args (tok : Tokenizer α) (docText : String)
    (chunk_tokens : ℤ) (overlap : ℚ) : Except String (List ℤ) :=
  (split_text tok docText chunk_tokens overlap (1/4)).map
    fun chunks => (List.range chunks.length).map Int.ofNat

/-- The minimap annotation each excerpt receives (markdown documents):
`create_minimap_fn(document.text)(index)` with `index = i`. -/
def excerpt_minimaps (tok : Tokenizer α) (docText : String)
    (chunk_tokens : ℤ) (overlap : ℚ) : Except String (List (Except String String)) :=
  (split_text tok docText chunk_tokens overlap (1/4)).map
    fun chunks => (List.range chunks.length).map
      fun i => get_location_fn docText (Int.ofNat i)

/-- The concrete document for claim C1: the second chunk (character offset
90) lies under the heading `"# B"` (minimap key 89), while the first lies
under `"# A"` (key 0). -/
def c1doc : String :=
  "# A\n" ++ String.mk (List.replicate 86 'x') ++ "\n# B\n" ++
    String.mk (List.replicate 25 'y')

/-- The heading prefix of level `k`: `k` hash characters followed by a
space. -/
def headingMarker (k : ℕ) : String :=
  String.mk (List.replicate k '#' ++ [' '])

/-- Total character count of a line list, newlines excluded (the `characters`
counter of `create_minimap_fn` counts `len(line)` over `splitlines`). -/
def sumLen (lines : List String) : ℕ :=
  (lines.map String.length).sum

/-- The character offset of the start of line `k` in the `"\n"`-joined
document: all preceding line lengths plus the `k` preceding newlines.
Under a round-trip tokenizer this is the offset basis of `split_text`
(`len(detokenize(tokens[:i]))` is a character offset into the full text). -/
def lineStartOffset (lines : List String) (k : ℕ) : ℕ :=
  sumLen (lines.take k) + k

/-! ## Helper lemmas -/

theorem charTokenizer_append : DetokAppend charTokenizer := by
  intro a b
  rfl

theorem charTokenizer_nonempty : DetokNonempty charTokenizer := by
  intro t h
  exact absurd (congrArg String.data h) (by simp [charTokenizer])

theorem charTokenizer_roundtrip : DetokRoundtrip charTokenizer := by
  intro s
  cases s
  rfl


theorem strStartsWith_iff {s p : String} :
    strStartsWith s p = true ↔ ∃ t, p.data ++ t = s.data := by
  simp only [strStartsWith, List.isPrefixOf_iff_prefix]
  exact Iff.rfl

/-- A line that begins with a code fence begins with a backtick, hence with
none of the five heading prefixes. -/
theorem fence_not_heading {line : String} (h : strStartsWith line "```" = true) :
    strStartsWith line "# " = false ∧ strStartsWith line "## " = false ∧
    strStartsWith line "### " = false ∧ strStartsWith line "#### " = false ∧
    strStartsWith line "##### " = false := by
  obtain ⟨t, ht⟩ := strStartsWith_iff.mp h
  refine ⟨?_, ?_, ?_, ?_, ?_⟩ <;>
  · rw [← Bool.not_eq_true]
    intro hc
    obtain ⟨u, hu⟩ := strStartsWith_iff.mp hc
    rw [← ht] at hu
    simp at hu

/-! ## Claims -/

/-- Claim C7: for the markdown text `"# A\n## B\n### C\n## D\ntext"`, the
lookup result at the offset of `"text"` (16 in the minimap's
newline-excluded basis, 20 as a character offset into the full text)
contains the level-1 heading `"# A"` and the level-2 heading `"## D"` and
no level-3 entry: `"### C"` was evicted when `"## D"` appeared. -/
theorem C7_heading_eviction :
    get_location_fn "# A\n## B\n### C\n## D\ntext" 16 = .ok "# A\n## D" ∧
      get_location_fn "# A\n## B\n### C\n## D\ntext" 20 = .ok "# A\n## D" := by
  constructor <;> rfl

/-- Claim C2 (code bug): minimap snapshots are *not* independent copies.
Levels 2-5 mutate the shared `current_stack` dict in place while `minimap`
stores references to it, so an earlier snapshot reflects later headings.
For `"## B\n### C"`, the snapshot recorded at offset 0 (immediately after
processing `"## B"`) should render as `"## B"`, but lookup at 0 returns
`"## B\n### C"`, including the heading processed later. -/
theorem C2_snapshot_aliasing :
    get_location_fn "## B\n### C" 0 = .ok "## B\n### C" ∧
      ("## B\n### C" : String) ≠ "## B" := by
  exact ⟨rfl, by decide⟩

section RatEval

attribute [local semireducible] Rat.mul Rat.inv Rat.add Rat.sub

set_option maxRecDepth 100000 in
/-- Claim C1 (code bug): `_create_excerpt` calls the minimap lookup with
the chunk's enumeration index, not its character offset.  On `c1doc`
(120 tokens under the character tokenizer, `chunk_tokens = 100`,
`overlap = 0.1`) the chunk offsets are `[0, 90]`, but the arguments passed
to the lookup are `[0, 1]`; consequently chunk 1 is annotated with
`"# A"` (= lookup 1) although the location of its offset is
`"# B"` (= lookup 90). -/
theorem C1_minimap_called_with_index :
    excerpt_minimap_args charTokenizer c1doc 100 (1/10) = .ok [0, 1] ∧
      (split_text charTokenizer c1doc 100 (1/10) (1/4)).map
        (fun l => l.map Prod.snd) = .ok [0, 90] ∧
      excerpt_minimaps charTokenizer c1doc 100 (1/10) =
        .ok [.ok "# A", .ok "# A"] ∧
      get_location_fn c1doc 90 = .ok "# B" ∧
      get_location_fn c1doc 1 = .ok "# A" := by
  refine ⟨?_, ?_, ?_, ?_, ?_⟩ <;> rfl

end RatEval

/-- Claim C8: while the fenced-code-block flag is set, no line changes the
heading store, records a snapshot, or rebinds the current stack — a fence
line only clears the flag, and any other line is skipped.  Concretely,
`"## fake"` between fences in `"# T\n```\n## fake\n```\nx"` records nothing
(the only snapshot is for `"# T"`) and later lookups are unaffected. -/
theorem C8_code_fence_suppression :
    (∀ (st : MinimapState) (line : String), st.inCodeBlock = true →
      (processLine st line).store = st.store ∧
      (processLine st line).minimap = st.minimap ∧
      (processLine st line).curRef = st.curRef) ∧
    (create_minimap "# T\n```\n## fake\n```\nx").minimap = [(0, 1)] ∧
    get_location_fn "# T\n```\n## fake\n```\nx" 30 = .ok "# T" := by
  refine ⟨?_, rfl, rfl⟩
  intro st line h
  by_cases hb : strStartsWith line "```" = true
  · obtain ⟨n1, n2, n3, n4, n5⟩ := fence_not_heading hb
    simp [processLine, hb, h, n1, n2, n3, n4, n5]
  · simp only [Bool.not_eq_true] at hb
    simp [processLine, hb, h]

/-- Witness for C8: a state inside a code block processing `"## fake"`. -/
theorem C8_code_fence_suppression_witness :
    (processLine ⟨[emptyStack], 0, true, 0, []⟩ "## fake").store = [emptyStack] ∧
      (processLine ⟨[emptyStack], 0, true, 0, []⟩ "## fake").minimap = [] ∧
      (processLine ⟨[emptyStack], 0, true, 0, []⟩ "## fake").curRef = 0 :=
  C8_code_fence_suppression.1 ⟨[emptyStack], 0, true, 0, []⟩ "## fake" rfl

/-- Claim C10: outside code fences, a line that does not begin with one to
five `#` characters immediately followed by a space leaves the heading
store unchanged and records no snapshot; in particular `"#Heading"` (no
space) and `"###### x"` (six hashes) record nothing. -/
theorem C10_heading_recognition :
    (∀ (st : MinimapState) (line : String), st.inCodeBlock = false →
      (∀ k, 1 ≤ k → k ≤ 5 → strStartsWith line (headingMarker k) = false) →
      (processLine st line).store = st.store ∧
      (processLine st line).minimap = st.minimap ∧
      (processLine st line).curRef = st.curRef) ∧
    (create_minimap "#Heading").minimap = [] ∧
    (create_minimap "###### x").minimap = [] ∧
    (create_minimap "# ok\n#Heading\n###### x").minimap = [(0, 1)] := by
  refine ⟨?_, rfl, rfl, rfl⟩
  intro st line h hk
  have h1 : strStartsWith line "# " = false := hk 1 (by omega) (by omega)
  have h2 : strStartsWith line "## " = false := hk 2 (by omega) (by omega)
  have h3 : strStartsWith line "### " = false := hk 3 (by omega) (by omega)
  have h4 : strStartsWith line "#### " = false := hk 4 (by omega) (by omega)
  have h5 : strStartsWith line "##### " = false := hk 5 (by omega) (by omega)
  by_cases hb : strStartsWith line "```" = true
  · simp [processLine, hb, h]
  · simp only [Bool.not_eq_true] at hb
    simp [processLine, hb, h, h1, h2, h3, h4, h5]

/-- Witness for C10: the clean initial state processing `"#Heading"`. -/
theorem C10_heading_recognition_witness :
    (processLine initState "#Heading").store = [emptyStack] ∧
      (processLine initState "#Heading").minimap = [] ∧
      (processLine initState "#Heading").curRef = 0 :=
  C10_heading_recognition.1 initState "#Heading" rfl
    (by intro k hk1 hk5; interval_cases k <;> rfl)

/-- Claim C9: `get_location_fn` fails iff the queried offset is negative;
for `n ≥ 0` below every recorded heading offset (in particular when there
are no headings) it returns the empty string. -/
theorem C9_lookup_error_iff :
    ∀ (content : String) (n : ℤ),
      ((∃ e, get_location_fn content n = .error e) ↔ n < 0) ∧
      (0 ≤ n → (∀ p ∈ (create_minimap content).minimap, n < (p.1 : ℤ)) →
        get_location_fn content n = .ok "") := by
  intro content n
  constructor
  · constructor
    · rintro ⟨e, he⟩
      by_contra hn
      rw [get_location_fn, if_neg hn] at he
      exact absurd he (by simp)
    · intro h
      exact ⟨"n must be >= 0", by rw [get_location_fn, if_pos h]⟩
  · intro h0 hall
    rw [get_location_fn, if_neg (by omega)]
    have hfil : (create_minimap content).minimap.filter
        (fun p => decide ((p.1 : ℤ) ≤ n)) = [] := by
      refine List.filter_eq_nil_iff.mpr fun p hp => ?_
      simpa using not_le.mpr (hall p hp)
    have hlook : (create_minimap content).minimap.lookup 0 = none := by
      refine List.lookup_eq_none_iff.mpr fun p hp => ?_
      have := hall p hp
      simp only [bne_iff_ne, ne_eq]
      omega
    simp only [hfil, hlook, List.map_nil, List.foldl_nil]
    rfl

/-- Witness for C9: a document whose first heading starts at character 50
(49 filler characters and a newline precede `"# H"`); lookup fails at `-1`
and returns the empty string at `0`. -/
theorem C9_lookup_error_iff_witness :
    (∃ e, get_location_fn (String.mk (List.replicate 49 'x') ++ "\n# H") (-1) =
      .error e) ∧
    get_location_fn (String.mk (List.replicate 49 'x') ++ "\n# H") 0 = .ok "" :=
  ⟨(C9_lookup_error_iff (String.mk (List.replicate 49 'x') ++ "\n# H") (-1)).1.mpr
      (by decide),
    (C9_lookup_error_iff (String.mk (List.replicate 49 'x') ++ "\n# H") 0).2
      (by decide) (by decide)⟩

theorem processLine_characters (st : MinimapState) (line : String) :
    (processLine st line).characters = st.characters + line.length := by
  rw [processLine]
  repeat' split
  all_goals rfl

theorem processLine_minimap_mem (st : MinimapState) (line : String) :
    ∀ e ∈ (processLine st line).minimap, e ∈ st.minimap ∨ e.1 = st.characters := by
  intro e he
  rw [processLine] at he
  repeat' split at he
  all_goals
    first
      | exact Or.inl he
      | (rcases List.mem_append.mp he with h | h
         · exact Or.inl h
         · exact Or.inr (congrArg Prod.fst (List.mem_singleton.mp h)))

theorem minimap_offsets_inv (lines : List String) :
    ∀ (st : MinimapState) (pre : List String),
      st.characters = sumLen pre →
      (∀ e ∈ st.minimap, ∃ k, k < pre.length ∧ e.1 = sumLen (pre.take k)) →
      (lines.foldl processLine st).characters = sumLen (pre ++ lines) ∧
        ∀ e ∈ (lines.foldl processLine st).minimap,
          ∃ k, k < (pre ++ lines).length ∧ e.1 = sumLen ((pre ++ lines).take k) := by
  induction lines with
  | nil =>
    intro st pre h1 h2
    simp only [List.foldl_nil, List.append_nil]
    exact ⟨h1, h2⟩
  | cons l ls ih =>
    intro st pre h1 h2
    have hstep := ih (processLine st l) (pre ++ [l]) ?_ ?_
    · simpa [List.append_assoc] using hstep
    · rw [processLine_characters, h1]
      simp [sumLen]
    · intro e he
      rcases processLine_minimap_mem st l e he with h | h
      · obtain ⟨k, hk, hke⟩ := h2 e h
        exact ⟨k, by simp; omega,
          by rw [hke, List.take_append_eq_append_take,
                Nat.sub_eq_zero_of_le (le_of_lt hk), List.take_zero,
                List.append_nil]⟩
      · exact ⟨pre.length, by simp, by rw [h, h1, List.take_left]⟩

/-- Claim C4 counterexample: in `"a\n# H"` the minimap records offset 1 for
the heading line (cumulative length of preceding lines, newline excluded),
but the chunker's character offset for that position — the length of the
detokenized 2-token prefix under the character tokenizer, equivalently
`lineStartOffset` — is 2.  The two offset bases differ. -/
theorem C4_offset_bases_differ :
    (create_minimap "a\n# H").minimap.map Prod.fst = [1] ∧
      (charTokenizer.detokenize ((charTokenizer.tokenize "a\n# H").take 2)).length
        = 2 ∧
      lineStartOffset ["a", "# H"] 1 = 2 ∧ (1 : ℕ) ≠ 2 := by
  exact ⟨rfl, rfl, rfl, by decide⟩

/-- Claim C4 as amended: every offset the minimap records is the cumulative
character count of the preceding lines with newlines excluded, i.e. it
falls short of the chunker-comparable character offset of that line
(`lineStartOffset`) by exactly the number of preceding newlines; the two
offset spaces coincide only when no newline precedes the heading. -/
theorem C4_minimap_offset_basis (lines : List String) :
    ∀ e ∈ (minimapOfLines lines).minimap,
      ∃ k, k < lines.length ∧ e.1 + k = lineStartOffset lines k := by
  intro e he
  obtain ⟨-, h2⟩ := minimap_offsets_inv lines initState [] rfl (by simp [initState])
  obtain ⟨k, hk, hke⟩ := h2 e (by simpa [minimapOfLines] using he)
  rw [List.nil_append] at hk hke
  exact ⟨k, hk, by simp [lineStartOffset, ← hke]⟩

/-- Witness for the amended C4: the heading-first document `["# H", "x"]`
records offset 0 for line 0, whose `lineStartOffset` is 0. -/
theorem C4_minimap_offset_basis_witness :
    ∃ k, k < ([ "# H", "x" ] : List String).length ∧
      ((0, 1) : ℕ × ℕ).1 + k = lineStartOffset ["# H", "x"] k :=
  C4_minimap_offset_basis ["# H", "x"] (0, 1) (by decide)

section RatEval2

attribute [local semireducible] Rat.mul Rat.inv Rat.add Rat.sub

/-- Claim C3 counterexample: for `chunk_size = -1` (and `overlap = 0`) the
window step is negative, and `split_text` raises nothing — it returns an
empty chunk list, although the claim demands an `InvalidConfiguration`
failure for every `chunk_size ≤ 0`. -/
theorem C3_negative_chunk_size_no_error :
    split_text charTokenizer "abc" (-1) 0 (1/4) = .ok [] ∧
      ¬ ∃ e, split_text charTokenizer "abc" (-1) 0 (1/4) = .error e := by
  constructor
  · rfl
  · rintro ⟨e, he⟩
    rw [show split_text charTokenizer "abc" (-1) 0 (1/4) = .ok [] from rfl] at he
    exact absurd he (by simp)

end RatEval2

/-- Claim C3 as amended: with a valid overlap, `split_text` fails (with the
generic `ValueError` of Python `range`, not a dedicated
`InvalidConfiguration`) exactly when the window step
`chunk_size - int(overlap * chunk_size)` is zero — which covers
`chunk_size = 0` and `chunk_size > 0` with `overlap = 1` — while a negative
step (possible only for `chunk_size < 0`) silently yields an empty chunk
list instead of an error. -/
theorem C3_error_iff_step_zero {α : Type} (tok : Tokenizer α) (text : String)
    (cs : ℤ) (ov thr : ℚ) (hov0 : 0 ≤ ov) (hov1 : ov ≤ 1) :
    ((∃ e, split_text tok text cs ov thr = .error e) ↔ splitStep cs ov = 0) ∧
      (splitStep cs ov < 0 → split_text tok text cs ov thr = .ok []) := by
  have hov : ¬(ov < 0 ∨ 1 < ov) := not_or.mpr ⟨not_lt.mpr hov0, not_lt.mpr hov1⟩
  constructor
  · by_cases hs : splitStep cs ov = 0
    · simp only [split_text, if_neg hov, if_pos hs, hs, iff_true]
      exact ⟨_, rfl⟩
    · simp only [split_text, if_neg hov, if_neg hs, hs, iff_false]
      rintro ⟨e, he⟩
      exact absurd he (by simp)
  · intro hneg
    have hs : splitStep cs ov ≠ 0 := by omega
    simp only [split_text, if_neg hov, if_neg hs, splitRaw,
      if_neg (by omega : ¬ 0 < splitStep cs ov)]
    rfl

section RatEval3

attribute [local semireducible] Rat.mul Rat.inv Rat.add Rat.sub

/-- Witness for the amended C3: `chunk_size = 0` steps by zero and errors;
`chunk_size = -1` steps negatively and returns no chunks. -/
theorem C3_error_iff_step_zero_witness :
    (∃ e, split_text charTokenizer "abc" 0 0 (1/4) = .error e) ∧
      split_text charTokenizer "abc" (-1) 0 (1/4) = .ok [] :=
  ⟨(C3_error_iff_step_zero charTokenizer "abc" 0 0 (1/4) (by decide)
        (by decide)).1.mpr (by decide),
    (C3_error_iff_step_zero charTokenizer "abc" (-1) 0 (1/4) (by decide)
        (by decide)).2 (by decide)⟩

end RatEval3

/-! ## Window-arithmetic lemmas for the chunker -/

theorem windowStarts_pairwise (n s : ℕ) (hs : 1 ≤ s) :
    (windowStarts n s).Pairwise (· < ·) := by
  unfold windowStarts
  refine List.pairwise_map.mpr ((List.pairwise_lt_range _).imp ?_)
  intro a b hab
  exact (Nat.mul_lt_mul_right (by omega)).mpr hab

theorem windowStarts_lt (n s : ℕ) (hs : 1 ≤ s) : ∀ i ∈ windowStarts n s, i < n := by
  intro i hi
  obtain ⟨k, hk, rfl⟩ := List.mem_map.mp hi
  rw [List.mem_range] at hk
  rcases Nat.eq_zero_or_pos n with hn | hn
  · subst hn
    rw [Nat.zero_add, Nat.div_eq_of_lt (by omega)] at hk
    omega
  · have hm : (n + s - 1) / s = (n - 1) / s + 1 := by
      have he : n + s - 1 = (n - 1) + s := by omega
      rw [he, Nat.add_div_right _ (by omega)]
    rw [hm] at hk
    calc k * s ≤ ((n - 1) / s) * s := Nat.mul_le_mul_right s (by omega)
      _ ≤ n - 1 := Nat.div_mul_le_self _ _
      _ < n := by omega

theorem windowStarts_getLast (n s : ℕ) (hs : 1 ≤ s) (hn : 1 ≤ n) :
    (windowStarts n s).getLast? = some (((n - 1) / s) * s) ∧
      n ≤ ((n - 1) / s) * s + s := by
  constructor
  · unfold windowStarts
    rw [List.getLast?_map]
    have hm : (n + s - 1) / s = (n - 1) / s + 1 := by
      have he : n + s - 1 = (n - 1) + s := by omega
      rw [he, Nat.add_div_right _ (by omega)]
    rw [hm, List.range_succ, List.getLast?_concat]
    rfl
  · have h2 : (n - 1) / s * s + (n - 1) % s = n - 1 := Nat.div_add_mod' _ _
    have hmod : (n - 1) % s < s := Nat.mod_lt _ (by omega)
    omega

theorem windowStarts_ne_nil (n s : ℕ) (hs : 1 ≤ s) (hn : 1 ≤ n) :
    windowStarts n s ≠ [] := by
  intro h
  obtain ⟨hlast, -⟩ := windowStarts_getLast n s hs hn
  rw [h] at hlast
  exact absurd hlast (by simp)

theorem detok_ne_empty {tok : Tokenizer α} (hadd : DetokAppend tok)
    (hne : DetokNonempty tok) {l : List α} (hl : l ≠ []) :
    tok.detokenize l ≠ "" := by
  match l with
  | [] => exact absurd rfl hl
  | t :: rest =>
    have hsplit : tok.detokenize (t :: rest) =
        tok.detokenize [t] ++ tok.detokenize rest := hadd [t] rest
    rw [hsplit]
    intro h
    have hlen := congrArg String.length h
    rw [String.length_append] at hlen
    refine hne t ?_
    have h0 : (tok.detokenize [t]).length = 0 := by
      simpa using Nat.eq_zero_of_add_eq_zero_right hlen
    cases hdt : tok.detokenize [t] with
    | mk data =>
      rw [hdt, String.length_mk, List.length_eq_zero] at h0
      rw [h0]

theorem string_pos_of_ne_empty {s : String} (h : s ≠ "") : 0 < s.length := by
  cases s with
  | mk data =>
    cases data with
    | nil => exact absurd rfl h
    | cons c cs => simp [String.length_mk]

theorem detok_take_lt {tok : Tokenizer α} (hadd : DetokAppend tok)
    (hne : DetokNonempty tok) (tokens : List α) {i j : ℕ} (hij : i < j)
    (hjn : j ≤ tokens.length) :
    (tok.detokenize (tokens.take i)).length <
      (tok.detokenize (tokens.take j)).length := by
  have hdecomp : tokens.take j = tokens.take i ++ (tokens.drop i).take (j - i) := by
    have h1 : (tokens.take j).take i = tokens.take i := by
      rw [List.take_take, Nat.min_eq_left (Nat.le_of_lt hij)]
    have h2 : (tokens.take j).drop i = (tokens.drop i).take (j - i) := by
      rw [List.take_drop, Nat.add_sub_cancel' (Nat.le_of_lt hij)]
    rw [← h1, ← h2, List.take_append_drop]
  have hmidne : (tokens.drop i).take (j - i) ≠ [] := by
    intro h0
    have := congrArg List.length h0
    simp at this
    omega
  have hmid : 0 < (tok.detokenize ((tokens.drop i).take (j - i))).length :=
    string_pos_of_ne_empty (detok_ne_empty hadd hne hmidne)
  rw [hdecomp, hadd, String.length_append]
  omega

theorem rawChunks_offsets (tok : Tokenizer α) (tokens : List α) (csize step : ℕ) :
    (rawChunks tok tokens csize step).map Prod.snd =
      (windowStarts tokens.length step).map
        (fun i => (tok.detokenize (tokens.take i)).length) := by
  rw [rawChunks, List.map_map]
  rfl

theorem rawChunks_offsets_pairwise {tok : Tokenizer α} (hadd : DetokAppend tok)
    (hne : DetokNonempty tok) (tokens : List α) (csize step : ℕ)
    (hs : 1 ≤ step) :
    ((rawChunks tok tokens csize step).map Prod.snd).Pairwise (· < ·) := by
  rw [rawChunks_offsets]
  refine List.pairwise_map.mpr ?_
  refine (windowStarts_pairwise tokens.length step hs).imp_of_mem ?_
  intro a b ha hb hab
  exact detok_take_lt hadd hne tokens hab
    (Nat.le_of_lt (windowStarts_lt tokens.length step hs b hb))

theorem absorbLast_map_snd : ∀ (l : List (List α × ℕ)), 2 ≤ l.length →
    (absorbLast l).map Prod.snd = (l.map Prod.snd).dropLast := by
  intro l
  match l with
  | [] => intro h; simp at h
  | [c] => intro h; simp at h
  | [c, d] => intro _; rfl
  | c :: d :: e :: rest =>
    intro _
    have ih := absorbLast_map_snd (d :: e :: rest) (by simp)
    simp only [absorbLast, List.map_cons]
    rw [ih]
    rfl

theorem absorbLast_append : ∀ (p : List (List α × ℕ)) (a b : List α × ℕ),
    absorbLast (p ++ [a, b]) = p ++ [(a.1 ++ b.1, a.2)] := by
  intro p a b
  match p with
  | [] => rfl
  | [x] => rfl
  | x :: y :: rest =>
    have ih := absorbLast_append (y :: rest) a b
    simp only [List.cons_append] at ih ⊢
    rcases hr : rest ++ [a, b] with - | ⟨z, zs⟩
    · exact absurd hr (by simp)
    · rw [hr] at ih
      rw [show absorbLast (x :: y :: z :: zs) =
          x :: absorbLast (y :: z :: zs) from rfl, ih]

theorem pyTrunc_nonneg {q : ℚ} (h : 0 ≤ q) : 0 ≤ pyTrunc q :=
  Int.tdiv_nonneg (Rat.num_nonneg.mpr h) (Int.natCast_nonneg _)

theorem splitStep_le (cs : ℤ) (ov : ℚ) (hcs : 0 ≤ cs) (hov0 : 0 ≤ ov) :
    splitStep cs ov ≤ cs := by
  have h : 0 ≤ pyTrunc (ov * cs) :=
    pyTrunc_nonneg (mul_nonneg hov0 (by exact_mod_cast hcs))
  rw [splitStep]
  omega

theorem windowStarts_zero (s : ℕ) (hs : 1 ≤ s) : windowStarts 0 s = [] := by
  unfold windowStarts
  rw [Nat.zero_add, Nat.div_eq_of_lt (by omega)]
  rfl

theorem map_snd_render (tok : Tokenizer α) (l : List (List α × ℕ)) :
    (l.map fun c => (tok.detokenize c.1, c.2)).map Prod.snd = l.map Prod.snd := by
  rw [List.map_map]
  rfl

theorem mergeCond_length {cs : ℤ} {thr : ℚ} {l : List (List α × ℕ)}
    (h : mergeCond cs thr l = true) : 2 ≤ l.length := by
  rw [mergeCond, Bool.and_eq_true] at h
  have := of_decide_eq_true h.1
  omega

theorem rawChunks_getLast {tok : Tokenizer α} (hadd : DetokAppend tok)
    (tokens : List α) (csize step : ℕ) (hs : 1 ≤ step) (hsc : step ≤ csize)
    (hn : 1 ≤ tokens.length) :
    ∃ c, (rawChunks tok tokens csize step).getLast? = some c ∧
      c.2 + (tok.detokenize c.1).length = (tok.detokenize tokens).length := by
  obtain ⟨hlast, hcover⟩ := windowStarts_getLast tokens.length step hs hn
  set i := ((tokens.length - 1) / step) * step with hi
  have hiltn : i < tokens.length := by
    have := Nat.div_mul_le_self (tokens.length - 1) step
    omega
  refine ⟨((tokens.drop i).take csize, (tok.detokenize (tokens.take i)).length),
    ?_, ?_⟩
  · rw [rawChunks, List.getLast?_map, hlast]
    rfl
  · have htake : (tokens.drop i).take csize = tokens.drop i := by
      apply List.take_of_length_le
      rw [List.length_drop]
      omega
    have hjoin : tok.detokenize (tokens.take i) ++ tok.detokenize (tokens.drop i) =
        tok.detokenize tokens := by
      rw [← hadd, List.take_append_drop]
    rw [htake, ← hjoin, String.length_append]

section RatEval4

attribute [local semireducible] Rat.mul Rat.inv Rat.add Rat.sub

/-- Claim C5 counterexample: with the character tokenizer on `"abcde"`,
`chunk_size = 4`, `overlap = 1/2` (step 2 ≥ 1) and `merge_threshold = 1/2`
— all valid parameters — the trailing merge absorbs the window `"e"` into
the overlapping window `"cde"`, producing the chunk `("cdee", 2)`:
`2 + 4 = 6 > 5`, so the last chunk's offset plus its length exceeds the
length of the original text. -/
theorem C5_cover_counterexample :
    split_text charTokenizer "abcde" 4 (1/2) (1/2) =
      .ok [("abcd", 0), ("cdee", 2)] ∧
      ("abcde".length < 2 + ("cdee" : String).length) := by
  exact ⟨rfl, by decide⟩

end RatEval4

/-- Claim C5 as amended: for any tokenizer whose decode distributes over
concatenation, decodes every token to a nonempty string and round-trips,
and any valid parameters (`chunk_size > 0`, `overlap ∈ [0,1]` with step
≥ 1, any threshold), the chunk offsets of `split_text` are strictly
increasing; and whenever the trailing merge does not fire, the last chunk's
offset plus its character length equals (hence is at most) the character
length of the original text.  (The counterexample shows the bound can fail
when the merge fires with a positive overlap, because the merged chunk
repeats the overlapped tokens.) -/
theorem C5_offsets_strictly_increasing {α : Type} (tok : Tokenizer α)
    (text : String) (cs : ℤ) (ov thr : ℚ) (hadd : DetokAppend tok)
    (hne : DetokNonempty tok) (hrt : DetokRoundtrip tok) (hcs : 0 < cs)
    (hov0 : 0 ≤ ov) (hov1 : ov ≤ 1) (hstep : 1 ≤ splitStep cs ov)
    (out : List (String × ℕ))
    (hout : split_text tok text cs ov thr = .ok out) :
    (out.map Prod.snd).Pairwise (· < ·) ∧
      (mergeCond cs thr (splitRaw tok text cs ov) = false →
        ∀ c, out.getLast? = some c → c.2 + c.1.length = text.length) := by
  have hov : ¬(ov < 0 ∨ 1 < ov) := not_or.mpr ⟨not_lt.mpr hov0, not_lt.mpr hov1⟩
  have hs0 : splitStep cs ov ≠ 0 := by omega
  rw [split_text] at hout
  rw [if_neg hov, if_neg hs0] at hout
  simp only [Except.ok.injEq] at hout
  have hrawdef : splitRaw tok text cs ov =
      rawChunks tok (tok.tokenize text) cs.toNat (splitStep cs ov).toNat := by
    rw [splitRaw, if_pos (by omega)]
  have hsnat : 1 ≤ (splitStep cs ov).toNat := by omega
  constructor
  · cases hmc : mergeCond cs thr (splitRaw tok text cs ov) with
    | false =>
      rw [hmc] at hout
      simp only [Bool.false_eq_true, if_false] at hout
      rw [← hout, map_snd_render, hrawdef]
      exact rawChunks_offsets_pairwise hadd hne _ _ _ hsnat
    | true =>
      rw [hmc] at hout
      simp only [if_true] at hout
      rw [← hout, map_snd_render,
        absorbLast_map_snd _ (mergeCond_length hmc)]
      refine List.Pairwise.sublist (List.dropLast_sublist _) ?_
      rw [hrawdef]
      exact rawChunks_offsets_pairwise hadd hne _ _ _ hsnat
  · intro hmc c hc
    rw [hmc] at hout
    simp only [Bool.false_eq_true, if_false] at hout
    rcases Nat.eq_zero_or_pos (tok.tokenize text).length with h0 | h0
    · rw [hrawdef, rawChunks, h0, windowStarts_zero _ hsnat] at hout
      rw [← hout] at hc
      exact absurd hc (by simp)
    · have hle : splitStep cs ov ≤ cs := splitStep_le cs ov (by omega) hov0
      obtain ⟨c0, hc0last, hc0sum⟩ :=
        rawChunks_getLast hadd (tok.tokenize text) cs.toNat
          (splitStep cs ov).toNat hsnat (by omega) h0
      rw [← hout, hrawdef, List.getLast?_map, hc0last] at hc
      simp only [Option.map_some', Option.some.injEq] at hc
      rw [← hc]
      rw [hrt text] at hc0sum
      simpa using hc0sum

section RatEval5

attribute [local semireducible] Rat.mul Rat.inv Rat.add Rat.sub

/-- Witness for the amended C5: `"abcde"` with `chunk_size = 4`,
`overlap = 0` (step 4), threshold `1/4` yields `[("abcd", 0), ("e", 4)]`:
offsets strictly increase and, as no merge fires, `4 + 1 = 5`. -/
theorem C5_offsets_strictly_increasing_witness :
    (([("abcd", 0), ("e", 4)] : List (String × ℕ)).map Prod.snd).Pairwise
        (· < ·) ∧
      (mergeCond 4 (1/4) (splitRaw charTokenizer "abcde" 4 0) = false →
        ∀ c, ([("abcd", 0), ("e", 4)] : List (String × ℕ)).getLast? = some c →
          c.2 + c.1.length = "abcde".length) :=
  C5_offsets_strictly_increasing charTokenizer "abcde" 4 0 (1/4)
    charTokenizer_append charTokenizer_nonempty charTokenizer_roundtrip
    (by decide) (by decide) (by decide) (by decide) _ rfl

end RatEval5

theorem exists_append_two {β : Type} {l : List β} (h : 2 ≤ l.length) :
    ∃ p a b, l = p ++ [a, b] := by
  rcases hr : l.reverse with - | ⟨b, tail⟩
  · have h0 : l.length = 0 := by rw [← List.length_reverse, hr]; rfl
    omega
  rcases ht : tail with - | ⟨a, rest⟩
  · subst ht
    have h0 : l.length = 1 := by rw [← List.length_reverse, hr]; rfl
    omega
  subst ht
  refine ⟨rest.reverse, a, b, ?_⟩
  have hl : l = l.reverse.reverse := (List.reverse_reverse l).symm
  rw [hl, hr]
  simp

section RatEval6

attribute [local semireducible] Rat.mul Rat.inv Rat.add Rat.sub

set_option maxRecDepth 400000 in
/-- Claim C6: the chunker merges the trailing chunk exactly when there are
at least two chunks and the final chunk's token count is strictly below
`chunk_size * merge_threshold`; the final chunk's tokens are then appended
onto the second-to-last chunk's tokens and its offset is discarded (the
merged chunk keeps the second-to-last offset).  Concretely (character
tokenizer): 200 tokens with `chunk_size = 100`, `overlap = 0.1`, threshold
`0.25` give windows of 100/100/20 tokens and the output is two chunks of
100 and 120 tokens at offsets 0 and 90; 205 tokens give a final window of
exactly 25 = 100·0.25 tokens, which is *not* merged (the comparison is
strict); and a single-window text is never merged, for every threshold. -/
theorem C6_trailing_merge :
    (∀ (α : Type) (tok : Tokenizer α) (text : String) (cs : ℤ) (ov thr : ℚ),
      0 ≤ ov → ov ≤ 1 → splitStep cs ov ≠ 0 →
      (2 ≤ (splitRaw tok text cs ov).length →
        ((((splitRaw tok text cs ov).getLast?.map fun c => c.1.length).getD 0 :
            ℕ) : ℚ) < (cs : ℚ) * thr →
        ∃ p a b, splitRaw tok text cs ov = p ++ [a, b] ∧
          split_text tok text cs ov thr =
            .ok ((p ++ [(a.1 ++ b.1, a.2)]).map
              fun c => (tok.detokenize c.1, c.2))) ∧
      ((splitRaw tok text cs ov).length < 2 ∨
          ¬ ((((splitRaw tok text cs ov).getLast?.map fun c => c.1.length).getD 0 :
            ℕ) : ℚ) < (cs : ℚ) * thr →
        split_text tok text cs ov thr =
          .ok ((splitRaw tok text cs ov).map fun c => (tok.detokenize c.1, c.2)))) ∧
    split_text charTokenizer (String.mk (List.replicate 200 'a')) 100 (1/10)
        (1/4) =
      .ok [(String.mk (List.replicate 100 'a'), 0),
        (String.mk (List.replicate 120 'a'), 90)] ∧
    split_text charTokenizer (String.mk (List.replicate 205 'a')) 100 (1/10)
        (1/4) =
      .ok [(String.mk (List.replicate 100 'a'), 0),
        (String.mk (List.replicate 100 'a'), 90),
        (String.mk (List.replicate 25 'a'), 180)] ∧
    ∀ thr : ℚ,
      split_text charTokenizer (String.mk (List.replicate 50 'a')) 100 (1/10)
          thr =
        .ok [(String.mk (List.replicate 50 'a'), 0)] := by
  have hgen : ∀ (α : Type) (tok : Tokenizer α) (text : String) (cs : ℤ)
      (ov thr : ℚ),
      0 ≤ ov → ov ≤ 1 → splitStep cs ov ≠ 0 →
      (2 ≤ (splitRaw tok text cs ov).length →
        ((((splitRaw tok text cs ov).getLast?.map fun c => c.1.length).getD 0 :
            ℕ) : ℚ) < (cs : ℚ) * thr →
        ∃ p a b, splitRaw tok text cs ov = p ++ [a, b] ∧
          split_text tok text cs ov thr =
            .ok ((p ++ [(a.1 ++ b.1, a.2)]).map
              fun c => (tok.detokenize c.1, c.2))) ∧
      ((splitRaw tok text cs ov).length < 2 ∨
          ¬ ((((splitRaw tok text cs ov).getLast?.map fun c => c.1.length).getD 0 :
            ℕ) : ℚ) < (cs : ℚ) * thr →
        split_text tok text cs ov thr =
          .ok ((splitRaw tok text cs ov).map fun c => (tok.detokenize c.1, c.2))) := by
    intro α tok text cs ov thr hov0 hov1 hs0
    have hov : ¬(ov < 0 ∨ 1 < ov) :=
      not_or.mpr ⟨not_lt.mpr hov0, not_lt.mpr hov1⟩
    constructor
    · intro hlen hlt
      obtain ⟨p, a, b, hdecomp⟩ := exists_append_two hlen
      refine ⟨p, a, b, hdecomp, ?_⟩
      rw [split_text]
      rw [if_neg hov, if_neg hs0]
      have hmc : mergeCond cs thr (splitRaw tok text cs ov) = true := by
        rw [mergeCond]
        simp only [Bool.and_eq_true, decide_eq_true_eq]
        exact ⟨by omega, hlt⟩
      simp only [hmc, if_true]
      rw [hdecomp, absorbLast_append]
    · intro hcond
      rw [split_text]
      rw [if_neg hov, if_neg hs0]
      have hmc : mergeCond cs thr (splitRaw tok text cs ov) = false := by
        rw [Bool.eq_false_iff]
        intro h
        rw [mergeCond, Bool.and_eq_true, decide_eq_true_eq,
          decide_eq_true_eq] at h
        rcases hcond with h2 | h2
        · omega
        · exact h2 h.2
      simp only [hmc, Bool.false_eq_true, if_false]
  refine ⟨hgen, by rfl, by rfl, ?_⟩
  intro thr
  have hone := (hgen Char charTokenizer (String.mk (List.replicate 50 'a'))
    100 (1/10) thr (by decide) (by decide) (by decide)).2 (Or.inl (by decide))
  exact hone.trans (by rfl)

set_option maxRecDepth 400000 in
/-- Witness for C6: the merge branch of the characterization applied to the
200-token document. -/
theorem C6_trailing_merge_witness :
    ∃ p a b,
      splitRaw charTokenizer (String.mk (List.replicate 200 'a')) 100 (1/10) =
        p ++ [a, b] ∧
      split_text charTokenizer (String.mk (List.replicate 200 'a')) 100 (1/10)
          (1/4) =
        .ok ((p ++ [(a.1 ++ b.1, a.2)]).map
          fun c => (charTokenizer.detokenize c.1, c.2)) :=
  (C6_trailing_merge.1 Char charTokenizer (String.mk (List.replicate 200 'a'))
    100 (1/10) (1/4) (by decide) (by decide) (by decide)).1 (by decide)
    (by decide)

end RatEval6
